import Mathlib

/-!
Shallow embedding of the rCore-based kernel under verification:
synchronization primitives (src/os/src/sync/mutex.rs), the
process/memory syscalls (src/os/src/syscall/process.rs), the file
syscalls (src/os/src/syscall/fs.rs) and the synchronization syscalls
(src/os/src/syscall/sync.rs).  Machine integers are modelled as Nat/Int
with explicit reductions modulo 2^32 / 2^64 where wrap-around matters;
Rust panics (assert!, unwrap, out-of-bounds indexing) are modelled as
Option with none standing for the panic.
-/

namespace RCoreModel

def PAGE_SIZE : Nat := 4096

/-- Modulus of u32 arithmetic, 2^32. -/
def U32_MOD : Nat := 4294967296

/-- Modulus of usize arithmetic on the 64-bit target, 2^64. -/
def U64_MOD : Nat := 18446744073709551616

/-- Wrapping usize addition (release-build semantics; a checked build
would panic on overflow instead). -/
def wrapAdd (a b : Nat) : Nat := (a + b) % U64_MOD

/-- Sentinel value -0xDEAD returned by the deadlock-detection paths. -/
def DEAD_SENTINEL : Int := -0xDEAD

/-! ## Mutexes (src/os/src/sync/mutex.rs)

The per-process flags touched by the lock paths are
`enable_deadlock_detect` and `deadlocked` on the current process's
inner control block. -/

structure ProcSyncFlags where
  enable_deadlock_detect : Bool
  deadlocked : Bool
deriving DecidableEq, Repr

/-- Result of one contention-deciding iteration of `MutexSpin::lock`
(mutex.rs lines 34-60): `ret = none` means the task called
`suspend_current_and_run_next` and will retry the loop; `ret = some r`
means the call returns `r` now without suspending. -/
structure SpinLockStep where
  ret : Option Int
  locked : Bool
  flags : ProcSyncFlags
deriving DecidableEq, Repr

/-- One iteration of the `MutexSpin::lock` loop, translated from
mutex.rs lines 34-60. -/
def mutexSpinLockStep (locked : Bool) (p : ProcSyncFlags) : SpinLockStep :=
  if locked then
    let p' : ProcSyncFlags := { p with deadlocked := true }
    if p'.enable_deadlock_detect then
      { ret := some DEAD_SENTINEL, locked := locked, flags := p' }
    else
      { ret := none, locked := locked, flags := p' }
  else
    { ret := some 0, locked := true, flags := p }

/-- State of a blocking mutex: `MutexBlockingInner` from mutex.rs.
Tasks in the wait queue are identified by abstract ids. -/
structure MutexBlockingInner where
  locked : Bool
  wait_queue : List Nat
deriving DecidableEq, Repr

/-- Result of `MutexBlocking::lock` (mutex.rs lines 102-126):
`ret = none` means the caller was pushed on the wait queue and called
`block_current_and_run_next`; `ret = some r` means the call returns `r`
without blocking. -/
structure BlockingLockStep where
  ret : Option Int
  inner : MutexBlockingInner
  flags : ProcSyncFlags
deriving DecidableEq, Repr

/-- Model of `MutexBlocking::lock`, translated from mutex.rs lines 102-126;
`cur` is the id of the calling task. -/
def mutexBlockingLock (m : MutexBlockingInner) (p : ProcSyncFlags)
    (cur : Nat) : BlockingLockStep :=
  if m.locked then
    let p' : ProcSyncFlags := { p with deadlocked := true }
    if p'.enable_deadlock_detect then
      { ret := some DEAD_SENTINEL, inner := m, flags := p' }
    else
      { ret := none,
        inner := { m with wait_queue := m.wait_queue ++ [cur] },
        flags := p' }
  else
    { ret := some 0, inner := { m with locked := true }, flags := p }

/-- Model of `MutexBlocking::unlock`, translated from mutex.rs lines 129-144.
`none` models the `assert!(mutex_inner.locked)` panic; on success the
result carries the new mutex state, the new process flags, and the task
woken by `wakeup_task`, if any. -/
def mutexBlockingUnlock (m : MutexBlockingInner) (p : ProcSyncFlags) :
    Option (MutexBlockingInner × ProcSyncFlags × Option Nat) :=
  if m.locked then
    let p' : ProcSyncFlags := { p with deadlocked := false }
    match m.wait_queue with
    | waking :: rest =>
        some ({ locked := m.locked, wait_queue := rest }, p', some waking)
    | [] =>
        some ({ locked := false, wait_queue := [] }, p', none)
  else
    none

/-! ## Virtual memory model

Page tables are modelled at the granularity observable through
`find_pte` / `translate` (spec section 4.2): for each virtual page
number, `find_pte` either fails (missing intermediate table, modelled
as `none`) or yields the leaf page-table entry by value.  `unmap`
clears the leaf to `PageTableEntry::empty()` without pruning the
intermediate tables, so an unmapped leaf stays `some` but invalid. -/

structure PTEntry where
  ppn : Nat
  valid : Bool
  permR : Bool
  permW : Bool
  permX : Bool
  permU : Bool
deriving DecidableEq, Repr

/-- Value of `PageTableEntry::empty()`: all bits zero. -/
def emptyPTE : PTEntry :=
  { ppn := 0, valid := false, permR := false, permW := false,
    permX := false, permU := false }

/-- The view of a page table through `find_pte`: virtual page number to
leaf entry, `none` when an intermediate table is missing. -/
def PageTable : Type := Nat → Option PTEntry

/-- Model of `StackFrameAllocator`: the contiguous never-allocated range
`[current, end)` plus the LIFO recycled list (spec section 4.1;
the fields are read directly by `sys_mmap`, process.rs line 246). -/
structure FrameAllocatorModel where
  current : Nat
  ed : Nat
  recycled : List Nat
deriving DecidableEq, Repr

/-- Number of frames the allocator can still hand out. -/
def freeFrames (fa : FrameAllocatorModel) : Nat :=
  fa.ed - fa.current + fa.recycled.length

/-- Model of `FrameAllocator::alloc`: pop the tail of the recycled list
(`Vec::pop`, LIFO), else advance `current`; `none` when exhausted. -/
def frameAlloc (fa : FrameAllocatorModel) :
    Option (Nat × FrameAllocatorModel) :=
  match fa.recycled.getLast? with
  | some p => some (p, { fa with recycled := fa.recycled.dropLast })
  | none =>
      if fa.current < fa.ed then
        some (fa.current, { fa with current := fa.current + 1 })
      else
        none

/-- A `MapArea`: half-open VPN range `[l, r)` with its permissions. -/
structure MapArea where
  l : Nat
  r : Nat
  permR : Bool
  permW : Bool
  permX : Bool
  permU : Bool
deriving DecidableEq, Repr

structure MemorySetModel where
  page_table : PageTable
  areas : List MapArea

/-- Task state visible to the mmap/munmap syscalls: the current task's
address space, the global frame allocator, and the per-task syscall
counters (slot number to count). -/
structure TaskState where
  memory_set : MemorySetModel
  allocator : FrameAllocatorModel
  syscall_times : Nat → Nat

/-- Increment `inner.syscall_times[i]` by one. -/
def bumpSyscall (f : Nat → Nat) (i : Nat) : Nat → Nat :=
  fun j => if j = i then f j + 1 else f j

/-- Pages requested for `len` bytes, exactly as process.rs lines 243
and 302 compute it in usize arithmetic:
`(len + PAGE_SIZE - 1) / PAGE_SIZE` with wrap-around (release-build
semantics), so `len ≥ 2^64 - 4095` yields 0 pages. -/
def numPages (len : Nat) : Nat :=
  ((wrapAdd len PAGE_SIZE + (U64_MOD - 1)) % U64_MOD) / PAGE_SIZE

/-- Modelled from the spec: `insert_framed_area` (section 4.3, its code
under mm/ is not in src/) rounds the end address up to a page
boundary; the rounding is the usize computation
`(va + PAGE_SIZE - 1) / PAGE_SIZE` with wrap-around, so an end address
above `2^64 - PAGE_SIZE` rounds to page 0. -/
def vaCeil (va : Nat) : Nat :=
  ((wrapAdd va PAGE_SIZE + (U64_MOD - 1)) % U64_MOD) / PAGE_SIZE

/-- Does some vpn in `[l, l + n)` hold a valid leaf entry?  This is the
loop of process.rs lines 258-268. -/
def anyValidPte (pt : PageTable) (l : Nat) : Nat → Bool
  | 0 => false
  | n + 1 =>
      (match pt l with
       | some pte => pte.valid
       | none => false)
      || anyValidPte pt (l + 1) n

/-- Does `find_pte` fail for some vpn in `[l, l + n)`?  This is the
loop of process.rs lines 308-314. -/
def anyMissingPte (pt : PageTable) (l : Nat) : Nat → Bool
  | 0 => false
  | n + 1 => (pt l).isNone || anyMissingPte pt (l + 1) n

/-- Every vpn in `[l, l + n)` holds a valid leaf entry. -/
def allValidPte (pt : PageTable) (l : Nat) : Nat → Bool
  | 0 => true
  | n + 1 =>
      (match pt l with
       | some pte => pte.valid
       | none => false)
      && allValidPte pt (l + 1) n

/-- The ppn stored at vpn `v` (0 when the leaf is missing). -/
def ppnAt (pt : PageTable) (v : Nat) : Nat :=
  match pt v with
  | some pte => pte.ppn
  | none => 0

/-- Ppns stored at vpns `l, l+1, ..., l+n-1`. -/
def rangePpns (pt : PageTable) (l : Nat) : Nat → List Nat
  | 0 => []
  | n + 1 => ppnAt pt l :: rangePpns pt (l + 1) n

/-- Map `n` fresh frames at vpns `l, ..., l+n-1` with the given
permissions: the per-page work of `MemorySet::insert_framed_area`
(spec section 4.3).  `none` models the out-of-memory panic. -/
def mapRange (pt : PageTable) (fa : FrameAllocatorModel) (l : Nat)
    (pR pW pX : Bool) : Nat → Option (PageTable × FrameAllocatorModel)
  | 0 => some (pt, fa)
  | n + 1 =>
      match frameAlloc fa with
      | none => none
      | some (f, fa') =>
          let pt' : PageTable := fun v =>
            if v = l then
              some { ppn := f, valid := true, permR := pR, permW := pW,
                     permX := pX, permU := true }
            else pt v
          mapRange pt' fa' (l + 1) pR pW pX n

/-- Unmap vpns `l, ..., l+n-1`: each leaf must currently be valid
(`PageTable::unmap` asserts validity, else panic = `none`); the leaf is
cleared to `emptyPTE` and the frame is returned to the recycled
list. -/
def unmapRange (pt : PageTable) (fa : FrameAllocatorModel) (l : Nat) :
    Nat → Option (PageTable × FrameAllocatorModel)
  | 0 => some (pt, fa)
  | n + 1 =>
      match pt l with
      | none => none
      | some pte =>
          if pte.valid then
            let pt' : PageTable := fun v =>
              if v = l then some emptyPTE else pt v
            let fa' : FrameAllocatorModel :=
              { fa with recycled := fa.recycled ++ [pte.ppn] }
            unmapRange pt' fa' (l + 1) n
          else
            none

/-- First list element satisfying `p`, together with the list with that
element removed; `none` when no element matches. -/
def findRemoveBy {α : Type} (p : α → Bool) : List α → Option (α × List α)
  | [] => none
  | x :: rest =>
      if p x then some (x, rest)
      else (findRemoveBy p rest).map (fun q => (q.1, x :: q.2))

/-! ## sys_mmap / sys_munmap (src/os/src/syscall/process.rs) -/

/-- Model of `sys_mmap` (process.rs lines 227-286).  Returns `none` on a kernel
panic (frame-allocator exhaustion inside `insert_framed_area`, which
the free-frame pre-check in fact rules out), otherwise the syscall
return value and the new task state.  The page count (line 243) and
the end address `start + len` (line 253) are usize computations that
wrap modulo 2^64. -/
def sys_mmap (st : TaskState) (start len port : Nat) :
    Option (Int × TaskState) :=
  let st1 : TaskState :=
    { st with syscall_times := bumpSyscall st.syscall_times 11 }
  if start % PAGE_SIZE ≠ 0 then some (-1, st1)
  else if port / 8 ≠ 0 ∨ port % 8 = 0 then some (-1, st1)
  else
    let n := numPages len
    if freeFrames st1.allocator ≤ n then some (-1, st1)
    else if anyValidPte st1.memory_set.page_table (start / PAGE_SIZE) n then
      some (-1, st1)
    else
      let pR : Bool := port % 2 = 1
      let pW : Bool := port % 4 / 2 = 1
      let pX : Bool := port / 4 = 1
      let l := start / PAGE_SIZE
      let r := vaCeil (wrapAdd start len)
      match mapRange st1.memory_set.page_table st1.allocator l pR pW pX
          (r - l) with
      | none => none
      | some (pt', fa') =>
          some (0,
            { st1 with
              memory_set :=
                { page_table := pt',
                  areas := st1.memory_set.areas ++
                    [{ l := l, r := r, permR := pR, permW := pW,
                       permX := pX, permU := true }] },
              allocator := fa' })

/-- Model of `sys_munmap` (process.rs lines 289-335).  `none` models a panic
inside `MapArea::unmap` (unmapping an invalid leaf).  The page count
(line 302) is the same wrapping usize computation as in `sys_mmap`. -/
def sys_munmap (st : TaskState) (start len : Nat) :
    Option (Int × TaskState) :=
  let st1 : TaskState :=
    { st with syscall_times := bumpSyscall st.syscall_times 8 }
  if start % PAGE_SIZE ≠ 0 then some (-1, st1)
  else
    let n := numPages len
    let l := start / PAGE_SIZE
    if anyMissingPte st1.memory_set.page_table l n then some (-1, st1)
    else
      match findRemoveBy (fun a => a.l == l && a.r == l + n)
          st1.memory_set.areas with
      | none => some (-1, st1)
      | some (a, rest) =>
          match unmapRange st1.memory_set.page_table st1.allocator a.l
              (a.r - a.l) with
          | none => none
          | some (pt', fa') =>
              some (0,
                { st1 with
                  memory_set := { page_table := pt', areas := rest },
                  allocator := fa' })

/-- Amended rejection condition for `sys_mmap`: the free-frame check of
process.rs line 246 rejects when the free-frame count is less than or
equal to (not just less than) the number of requested pages. -/
def mmapReject (st : TaskState) (start len port : Nat) : Prop :=
  start % PAGE_SIZE ≠ 0 ∨ port / 8 ≠ 0 ∨ port % 8 = 0 ∨
    freeFrames st.allocator ≤ numPages len ∨
    anyValidPte st.memory_set.page_table (start / PAGE_SIZE)
      (numPages len) = true

/-- Rejection condition exactly as the claim states it: free frames
are *insufficient* for the requested pages, that is, strictly fewer
free frames than requested pages. -/
def mmapClaimReject (st : TaskState) (start len port : Nat) : Prop :=
  start % PAGE_SIZE ≠ 0 ∨ port / 8 ≠ 0 ∨ port % 8 = 0 ∨
    freeFrames st.allocator < numPages len ∨
    anyValidPte st.memory_set.page_table (start / PAGE_SIZE)
      (numPages len) = true

/-- The page range of `[start, start + len)` coincides with an existing
map area by both endpoints. -/
def munmapMatch (st : TaskState) (start len : Nat) : Prop :=
  start % PAGE_SIZE = 0 ∧
    ∃ a ∈ st.memory_set.areas,
      a.l = start / PAGE_SIZE ∧ a.r = start / PAGE_SIZE + numPages len

/-- Well-formedness: every page of every map area holds a valid leaf
entry (the address-space invariant of spec section 3). -/
def areasMapped (st : TaskState) : Prop :=
  ∀ a ∈ st.memory_set.areas,
    allValidPte st.memory_set.page_table a.l (a.r - a.l) = true

/-- Well-formedness: the VPN ranges of the map areas are pairwise
disjoint (the address-space invariant of spec section 3). -/
def areasDisjoint (st : TaskState) : Prop :=
  st.memory_set.areas.Pairwise (fun a b => a.r ≤ b.l ∨ b.r ≤ a.l)

/-! ## sys_get_time and the straddling write (process.rs lines 148-174)

`sys_get_time` translates only the page containing `ts` and then
stores the 16-byte `TimeVal` (`#[repr(C)] { sec: usize, usec: usize }`)
through a raw physical pointer, so the bytes land at physically
consecutive addresses starting from the translation of the first
byte. -/

/-- Physical addresses receiving the 16 bytes of the `TimeVal` store
performed by `sys_get_time`: the page of `ts` is translated once
(`memory_set.translate(ts_page_num).unwrap().ppn()`, process.rs line
161) and the struct is written at physically consecutive addresses.
`none` models the `unwrap` panic. -/
def sysGetTimeWriteAddrs (pt : PageTable) (ts : Nat) :
    Option (List Nat) :=
  match pt (ts / PAGE_SIZE) with
  | none => none
  | some pte =>
      some ((List.range 16).map
        (fun i => pte.ppn * PAGE_SIZE + ts % PAGE_SIZE + i))

/-- Modelled from the spec: section 4.4 requires a struct that may
straddle a page boundary to be written through the scatter translator
(`translated_byte_buffer`), which translates every page the user range
spans, never crossing page boundaries.  This gives, for each byte `i`
of a `sz`-byte struct at user address `ts`, the physical address
obtained by translating the page of `ts + i`. -/
def specScatterWriteAddrs (pt : PageTable) (ts sz : Nat) :
    Option (List Nat) :=
  (List.range sz).mapM
    (fun i => (pt ((ts + i) / PAGE_SIZE)).map
      (fun pte => pte.ppn * PAGE_SIZE + (ts + i) % PAGE_SIZE))

/-- A concrete address space in which vpn 1 and vpn 2 map to
non-consecutive physical pages 5 and 7. -/
def straddlePT : PageTable := fun v =>
  if v = 1 then
    some { ppn := 5, valid := true, permR := true, permW := true,
           permX := false, permU := true }
  else if v = 2 then
    some { ppn := 7, valid := true, permR := true, permW := true,
           permX := false, permU := true }
  else none

/-! ## sys_waitpid (process.rs lines 106-143) -/

/-- A child process control block as seen by `sys_waitpid`. -/
structure ChildModel where
  pid : Nat
  zombie : Bool
  exit_code : Int
deriving DecidableEq, Repr

/-- Condition `pid == -1 || pid as usize == p.getpid()` (process.rs lines 118 and
125); the `as usize` cast is the two's-complement reinterpretation. -/
def matchesPid (pid : Int) (c : ChildModel) : Bool :=
  pid == -1 || ((pid.emod (U64_MOD : Nat)).toNat == c.pid)

/-- Model of `sys_waitpid`, translated from process.rs lines 106-143.  The
result is (return value, remaining children, exit code written through
`translated_refmut` to the user pointer, if any). -/
def sys_waitpid (children : List ChildModel) (pid : Int) :
    Int × List ChildModel × Option Int :=
  if !(children.any (fun p => matchesPid pid p)) then
    (-1, children, none)
  else
    match findRemoveBy (fun p => p.zombie && matchesPid pid p) children with
    | some (c, rest) => (Int.ofNat c.pid, rest, some c.exit_code)
    | none => (-2, children, none)

/-! ## File syscalls (src/os/src/syscall/fs.rs) -/

/-- A file handle in the fd table, with its capabilities. -/
structure FileHandle where
  readable : Bool
  writable : Bool
deriving DecidableEq, Repr

/-- The task-local state the file syscalls touch: the fd table and the
per-task syscall counters. -/
structure TaskFsState where
  fd_table : List (Option FileHandle)
  syscall_times : Nat → Nat

/-- Model of `sys_write` (fs.rs lines 9-28).  `delegated` abstracts the value
returned by `file.write(...)`; the function performs no other state
change and, in particular, touches no syscall counter. -/
def sys_write (st : TaskFsState) (fd : Nat) (delegated : Nat) :
    Int × TaskFsState :=
  if st.fd_table.length ≤ fd then (-1, st)
  else
    match st.fd_table.getD fd none with
    | some file =>
        if !file.writable then (-1, st)
        else (Int.ofNat delegated, st)
    | none => (-1, st)

/-- Model of `sys_read` (fs.rs lines 30-50), with `file.read(...)` abstracted
as `delegated`. -/
def sys_read (st : TaskFsState) (fd : Nat) (delegated : Nat) :
    Int × TaskFsState :=
  if st.fd_table.length ≤ fd then (-1, st)
  else
    match st.fd_table.getD fd none with
    | some file =>
        if !file.readable then (-1, st)
        else (Int.ofNat delegated, st)
    | none => (-1, st)

/-- Model of `sys_close` (fs.rs lines 67-79). -/
def sys_close (st : TaskFsState) (fd : Nat) : Int × TaskFsState :=
  if st.fd_table.length ≤ fd then (-1, st)
  else
    match st.fd_table.getD fd none with
    | none => (-1, st)
    | some _ =>
        (0, { st with fd_table := st.fd_table.set fd none })

/-- Model of `sys_fstat` (fs.rs lines 82-113): the fd checks; the `Stat` store
itself goes to user memory through the same single-page translation as
`sys_get_time` and does not touch the task-local state. -/
def sys_fstat (st : TaskFsState) (fd : Nat) : Int × TaskFsState :=
  if st.fd_table.length ≤ fd then (-1, st)
  else
    match st.fd_table.getD fd none with
    | none => (-1, st)
    | some _ => (0, st)

/-! ## Filesystem state for linkat/unlinkat (fs.rs lines 116-215)

Directory-entry names are opaque byte strings, abstracted as naturals;
`nlink` is the on-disk `nlink_num: u32` of each inode id. -/

structure FsModel where
  root_dir : List (Nat × Nat)
  nlink : Nat → Nat
  data_freed : List Nat
  synced : Bool

/-- Model of `sys_linkat` (fs.rs lines 116-154).  `readStr` models
`translated_str`: the name read from a user pointer.  The pointer
comparison `old_name == new_name` of line 121 compares the raw
pointers, not the names. -/
def sys_linkat (fs : FsModel) (readStr : Nat → Nat)
    (old_ptr new_ptr : Nat) : Int × FsModel :=
  if old_ptr = new_ptr then (-1, fs)
  else
    let oldName := readStr old_ptr
    let newName := readStr new_ptr
    match (fs.root_dir.find? (fun e => e.1 == oldName)).map (·.2) with
    | none => (-1, fs)
    | some inode_id =>
        (0,
          { root_dir := fs.root_dir ++ [(newName, inode_id)],
            nlink := fun i =>
              if i = inode_id then (fs.nlink inode_id + 1) % U32_MOD
              else fs.nlink i,
            data_freed := fs.data_freed,
            synced := true })

/-- The directory scan of `sys_unlinkat` (fs.rs lines 169-183): the
entries whose name differs from `name` in order, and the inode id of
the last matching entry (`none` when no entry matches; the source
keeps the initial value 0 in that case). -/
def unlinkScan (name : Nat) : List (Nat × Nat) →
    List (Nat × Nat) × Option Nat
  | [] => ([], none)
  | e :: rest =>
      let (v, found) := unlinkScan name rest
      if e.1 == name then
        (v, match found with
            | some i => some i
            | none => some e.2)
      else
        (e :: v, found)

/-- Model of `sys_unlinkat` (fs.rs lines 157-215): rebuild the root directory
without the matching entries, then decrement `nlink_num` of the
recorded inode id (which stays 0 when no entry matched), freeing the
inode's data blocks when the count reaches zero.  The `u32` decrement
wraps modulo 2^32. -/
def sys_unlinkat (fs : FsModel) (readStr : Nat → Nat) (name_ptr : Nat) :
    Int × FsModel :=
  let name := readStr name_ptr
  let scanned := unlinkScan name fs.root_dir
  let inode_id := scanned.2.getD 0
  let n' := (fs.nlink inode_id + (U32_MOD - 1)) % U32_MOD
  (0,
    { root_dir := scanned.1,
      nlink := fun i => if i = inode_id then n' else fs.nlink i,
      data_freed :=
        if n' = 0 then fs.data_freed ++ [inode_id] else fs.data_freed,
      synced := true })

/-! ## Semaphore syscalls (src/os/src/syscall/sync.rs) -/

/-- A counting semaphore: signed count and FIFO wait queue. -/
structure SemModel where
  count : Int
  wait_queue : List Nat
deriving DecidableEq, Repr

/-- Modelled from the spec: `Semaphore::down` is not under src/ (only
its caller `sys_semaphore_down` is); spec section 4.6 says `down`:
decrement; if the result is < 0, block self.  The boolean reports
whether the caller blocked. -/
def semDown (s : SemModel) (cur : Nat) : SemModel × Bool :=
  let c := s.count - 1
  if c < 0 then
    ({ count := c, wait_queue := s.wait_queue ++ [cur] }, true)
  else
    ({ s with count := c }, false)

/-- Model of `sys_semaphore_down` (sync.rs lines 291-314): short-circuits with
-0xDEAD when `sem_id > 2` before touching the semaphore table;
otherwise indexes the table (`none` models the out-of-bounds or
`unwrap` panic) and performs the down.  The boolean in the result
reports whether the caller blocked. -/
def sys_semaphore_down (sems : List (Option SemModel)) (sem_id cur : Nat) :
    Option (Int × List (Option SemModel) × Bool) :=
  if sem_id > 2 then some (DEAD_SENTINEL, sems, false)
  else
    match sems.getD sem_id none with
    | none => none
    | some s =>
        let d := semDown s cur
        some (0, sems.set sem_id (some d.1), d.2)

/-! ## Concrete states used to evaluate the models -/

/-- An address space with no mappings, one free frame, fresh
counters. -/
def mmapTightState : TaskState :=
  { memory_set := { page_table := fun _ => none, areas := [] },
    allocator := { current := 0, ed := 1, recycled := [] },
    syscall_times := fun _ => 0 }

/-- An address space with no mappings and two free frames. -/
def mmapRoomState : TaskState :=
  { memory_set := { page_table := fun _ => none, areas := [] },
    allocator := { current := 0, ed := 2, recycled := [] },
    syscall_times := fun _ => 0 }

/-- An empty map area at vpn 16, as `sys_mmap` with `len = 0`
creates. -/
def emptyArea16 : MapArea :=
  { l := 16, r := 16, permR := true, permW := false, permX := false,
    permU := true }

/-- A state holding two empty map areas at vpn 16 — reachable by two
calls `sys_mmap(0x10000, 0, 1)`. -/
def twoEmptyAreasState : TaskState :=
  { memory_set := { page_table := fun _ => none,
                    areas := [emptyArea16, emptyArea16] },
    allocator := { current := 0, ed := 0, recycled := [] },
    syscall_times := fun _ => 0 }

/-- A one-page framed area at vpn 16 backed by frame 3. -/
def mappedArea16 : MapArea :=
  { l := 16, r := 17, permR := true, permW := true, permX := false,
    permU := true }

/-- A state with a single one-page framed area at vpn 16. -/
def onePageState : TaskState :=
  { memory_set :=
      { page_table := fun v =>
          if v = 16 then
            some { ppn := 3, valid := true, permR := true, permW := true,
                   permX := false, permU := true }
          else none,
        areas := [mappedArea16] },
    allocator := { current := 5, ed := 5, recycled := [] },
    syscall_times := fun _ => 0 }

/-! ## Helper lemmas -/

theorem findRemoveBy_eq_none {α : Type} (p : α → Bool) (l : List α) :
    findRemoveBy p l = none ↔ ∀ x ∈ l, p x = false := by
  induction l with
  | nil => simp [findRemoveBy]
  | cons x rest ih =>
      cases hx : p x with
      | true => simp [findRemoveBy, hx]
      | false => simp [findRemoveBy, hx, Option.map_eq_none', ih]

theorem findRemoveBy_eq_some {α : Type} (p : α → Bool) :
    ∀ (l : List α) (a : α) (rest : List α),
      findRemoveBy p l = some (a, rest) →
      p a = true ∧ ∃ pre post, l = pre ++ a :: post ∧ rest = pre ++ post ∧
        ∀ x ∈ pre, p x = false := by
  intro l
  induction l with
  | nil => intro a rest h; simp [findRemoveBy] at h
  | cons x xs ih =>
      intro a rest h
      cases hx : p x with
      | true =>
          simp only [findRemoveBy, hx, if_pos, Option.some.injEq,
            Prod.mk.injEq] at h
          obtain ⟨ha, hr⟩ := h
          subst ha; subst hr
          exact ⟨hx, [], xs, rfl, rfl, by simp⟩
      | false =>
          simp only [findRemoveBy, hx, Bool.false_eq_true, if_false,
            Option.map_eq_some'] at h
          obtain ⟨⟨a', rest'⟩, hfr, heq⟩ := h
          obtain ⟨ha, hr⟩ := Prod.mk.injEq .. ▸ heq
          subst ha
          obtain ⟨hpa, pre, post, hl, hr', hpre⟩ := ih a' rest' hfr
          refine ⟨hpa, x :: pre, post, by simp [hl], ?_, ?_⟩
          · subst hr; simp [hr']
          · intro y hy
            rcases List.mem_cons.mp hy with hyx | hyp
            · subst hyx; exact hx
            · exact hpre y hyp

theorem findRemoveBy_isSome_of_exists {α : Type} (p : α → Bool) :
    ∀ (l : List α), (∃ x ∈ l, p x = true) →
      ∃ a rest, findRemoveBy p l = some (a, rest) := by
  intro l
  induction l with
  | nil => intro h; simp at h
  | cons x xs ih =>
      intro h
      cases hx : p x with
      | true => exact ⟨x, xs, by simp [findRemoveBy, hx]⟩
      | false =>
          obtain ⟨y, hy, hpy⟩ := h
          rcases List.mem_cons.mp hy with hyx | hyp
          · subst hyx; rw [hx] at hpy; cases hpy
          · obtain ⟨a, rest, hfr⟩ := ih ⟨y, hyp, hpy⟩
            exact ⟨a, x :: rest, by simp [findRemoveBy, hx, hfr]⟩

theorem allValidPte_congr (pt1 pt2 : PageTable) :
    ∀ (n l : Nat), (∀ i, i < n → pt1 (l + i) = pt2 (l + i)) →
      allValidPte pt1 l n = allValidPte pt2 l n := by
  intro n
  induction n with
  | zero => intro l _; rfl
  | succ n ih =>
      intro l h
      have h0 : pt1 l = pt2 l := by
        have := h 0 (Nat.succ_pos n); simpa using this
      have hrec : allValidPte pt1 (l + 1) n = allValidPte pt2 (l + 1) n := by
        refine ih (l + 1) (fun i hi => ?_)
        have := h (i + 1) (by omega)
        have harg : l + 1 + i = l + (i + 1) := by omega
        rw [harg]; exact this
      simp only [allValidPte, h0, hrec]

theorem rangePpns_congr (pt1 pt2 : PageTable) :
    ∀ (n l : Nat), (∀ i, i < n → pt1 (l + i) = pt2 (l + i)) →
      rangePpns pt1 l n = rangePpns pt2 l n := by
  intro n
  induction n with
  | zero => intro l _; rfl
  | succ n ih =>
      intro l h
      have h0 : pt1 l = pt2 l := by
        have := h 0 (Nat.succ_pos n); simpa using this
      have hrec : rangePpns pt1 (l + 1) n = rangePpns pt2 (l + 1) n := by
        refine ih (l + 1) (fun i hi => ?_)
        have := h (i + 1) (by omega)
        have harg : l + 1 + i = l + (i + 1) := by omega
        rw [harg]; exact this
      simp only [rangePpns, ppnAt, h0, hrec]

theorem allValidPte_imp_not_missing (pt : PageTable) :
    ∀ (n l : Nat), allValidPte pt l n = true →
      anyMissingPte pt l n = false := by
  intro n
  induction n with
  | zero => intro l _; rfl
  | succ n ih =>
      intro l h
      simp only [allValidPte, Bool.and_eq_true] at h
      obtain ⟨h0, hrest⟩ := h
      cases hpt : pt l with
      | none => rw [hpt] at h0; cases h0
      | some pte =>
          simp only [anyMissingPte, hpt, Option.isNone_some,
            Bool.false_or]
          exact ih (l + 1) hrest

theorem anyMissingPte_eq_false (pt : PageTable) :
    ∀ (n l : Nat), (∀ i, i < n → (pt (l + i)).isSome = true) →
      anyMissingPte pt l n = false := by
  intro n
  induction n with
  | zero => intro l _; rfl
  | succ n ih =>
      intro l h
      have h0 : (pt l).isSome = true := by
        have := h 0 (Nat.succ_pos n); simpa using this
      cases hpt : pt l with
      | none => rw [hpt] at h0; cases h0
      | some pte =>
          simp only [anyMissingPte, hpt, Option.isNone_some, Bool.false_or]
          refine ih (l + 1) (fun i hi => ?_)
          have := h (i + 1) (by omega)
          have harg : l + 1 + i = l + (i + 1) := by omega
          rw [harg]; exact this

theorem frameAlloc_of_pos (fa : FrameAllocatorModel)
    (h : 0 < freeFrames fa) :
    ∃ f fa', frameAlloc fa = some (f, fa') ∧
      freeFrames fa' + 1 = freeFrames fa := by
  rcases List.eq_nil_or_concat fa.recycled with hnil | ⟨l2, b, hcat⟩
  · have hlt : fa.current < fa.ed := by
      simp [freeFrames, hnil] at h; omega
    refine ⟨fa.current, { fa with current := fa.current + 1 },
      by simp [frameAlloc, hnil, hlt], ?_⟩
    simp [freeFrames, hnil]; omega
  · refine ⟨b, { fa with recycled := fa.recycled.dropLast }, ?_, ?_⟩
    · simp [frameAlloc, hcat, List.getLast?_concat]
    · simp [freeFrames, hcat, List.dropLast_concat]; omega

theorem mapRange_isSome (pR pW pX : Bool) :
    ∀ (n : Nat) (pt : PageTable) (fa : FrameAllocatorModel) (l : Nat),
      n ≤ freeFrames fa →
      ∃ pt' fa', mapRange pt fa l pR pW pX n = some (pt', fa') := by
  intro n
  induction n with
  | zero => exact fun pt fa l _ => ⟨pt, fa, rfl⟩
  | succ n ih =>
      intro pt fa l h
      obtain ⟨f, fa1, hf, hfree⟩ := frameAlloc_of_pos fa (by omega)
      obtain ⟨pt', fa', hrec⟩ :=
        ih (fun v =>
            if v = l then
              some { ppn := f, valid := true, permR := pR, permW := pW,
                     permX := pX, permU := true }
            else pt v)
          fa1 (l + 1) (by omega)
      exact ⟨pt', fa', by simp only [mapRange, hf]; exact hrec⟩

theorem unmapRange_spec :
    ∀ (n : Nat) (pt : PageTable) (fa : FrameAllocatorModel) (l : Nat),
      allValidPte pt l n = true →
      ∃ pt' fa', unmapRange pt fa l n = some (pt', fa') ∧
        (∀ v, l ≤ v → v < l + n → pt' v = some emptyPTE) ∧
        (∀ v, v < l ∨ l + n ≤ v → pt' v = pt v) ∧
        fa'.recycled = fa.recycled ++ rangePpns pt l n ∧
        fa'.current = fa.current ∧ fa'.ed = fa.ed := by
  intro n
  induction n with
  | zero =>
      intro pt fa l _
      exact ⟨pt, fa, rfl, fun v h1 h2 => absurd h2 (by omega),
        fun v _ => rfl, by simp [rangePpns], rfl, rfl⟩
  | succ n ih =>
      intro pt fa l hv
      simp only [allValidPte, Bool.and_eq_true] at hv
      obtain ⟨h0, hrest⟩ := hv
      cases hpt : pt l with
      | none => rw [hpt] at h0; cases h0
      | some pte =>
          rw [hpt] at h0
          have hvalid : pte.valid = true := h0
          have hcong :
              allValidPte (fun v => if v = l then some emptyPTE else pt v)
                (l + 1) n = allValidPte pt (l + 1) n := by
            refine allValidPte_congr _ _ n (l + 1) (fun i hi => ?_)
            exact if_neg (by omega)
          obtain ⟨pt', fa', hrec, hin, hout, hrc, hcur, hed⟩ :=
            ih (fun v => if v = l then some emptyPTE else pt v)
              { fa with recycled := fa.recycled ++ [pte.ppn] } (l + 1)
              (by rw [hcong]; exact hrest)
          refine ⟨pt', fa', ?_, ?_, ?_, ?_, ?_, ?_⟩
          · simp only [unmapRange, hpt, hvalid, if_pos]
            exact hrec
          · intro v h1 h2
            by_cases hvl : v = l
            · subst hvl
              have := hout v (Or.inl (by omega))
              rw [this, if_pos rfl]
            · exact hin v (by omega) (by omega)
          · intro v hv'
            have : v ≠ l := by omega
            have hstep := hout v (by omega)
            rw [hstep, if_neg this]
          · rw [hrc]
            have hshift :
                rangePpns (fun v => if v = l then some emptyPTE else pt v)
                  (l + 1) n = rangePpns pt (l + 1) n := by
              refine rangePpns_congr _ _ n (l + 1) (fun i hi => ?_)
              exact if_neg (by omega)
            rw [hshift]
            simp only [rangePpns, ppnAt, hpt]
            simp [List.append_assoc]
          · exact hcur
          · exact hed

theorem mmap_range_le (start len : Nat) (hs : start < U64_MOD)
    (hl : len < U64_MOD) (ha : start % PAGE_SIZE = 0) :
    vaCeil (wrapAdd start len) - start / PAGE_SIZE ≤ numPages len := by
  simp only [vaCeil, wrapAdd, numPages, PAGE_SIZE, U64_MOD] at *
  omega

theorem mmap_range_eq (start len : Nat) (ha : start % PAGE_SIZE = 0)
    (hno : start + len + PAGE_SIZE - 1 < U64_MOD) :
    vaCeil (wrapAdd start len) = start / PAGE_SIZE + numPages len := by
  simp only [vaCeil, wrapAdd, numPages, PAGE_SIZE, U64_MOD] at *
  omega

/-! ## Claim theorems -/

/-- C1: whenever a mutex lock operation — spin or blocking — is invoked
while the mutex is already locked and the calling process has
`enable_deadlock_detect` set, the call returns -0xDEAD without the
caller suspending or blocking (`ret = some _` in the model), the
caller is not enqueued on the wait queue, and the mutex's locked flag
is unchanged. -/
theorem mutex_lock_deadlock_detect_spec
    (m : MutexBlockingInner) (p : ProcSyncFlags) (cur : Nat)
    (hb : m.locked = true) (he : p.enable_deadlock_detect = true) :
    (mutexSpinLockStep true p).ret = some (-0xDEAD) ∧
    (mutexSpinLockStep true p).locked = true ∧
    (mutexBlockingLock m p cur).ret = some (-0xDEAD) ∧
    (mutexBlockingLock m p cur).inner = m := by
  refine ⟨?_, ?_, ?_, ?_⟩ <;>
    simp [mutexSpinLockStep, mutexBlockingLock, hb, he, DEAD_SENTINEL]

theorem mutex_lock_deadlock_detect_spec_witness :
    (mutexSpinLockStep true ⟨true, false⟩).ret = some (-0xDEAD) ∧
    (mutexSpinLockStep true ⟨true, false⟩).locked = true ∧
    (mutexBlockingLock ⟨true, [9]⟩ ⟨true, false⟩ 4).ret = some (-0xDEAD) ∧
    (mutexBlockingLock ⟨true, [9]⟩ ⟨true, false⟩ 4).inner = ⟨true, [9]⟩ :=
  mutex_lock_deadlock_detect_spec ⟨true, [9]⟩ ⟨true, false⟩ 4 rfl rfl

/-- C6: blocking-mutex unlock panics (`none`) when the mutex is not
locked; when locked with a non-empty wait queue it pops the head
waiter and wakes it while the locked flag stays true; when locked with
an empty wait queue it clears the locked flag. -/
theorem mutex_blocking_unlock_spec
    (m : MutexBlockingInner) (p : ProcSyncFlags) :
    (m.locked = false → mutexBlockingUnlock m p = none) ∧
    (∀ w rest, m.locked = true → m.wait_queue = w :: rest →
      mutexBlockingUnlock m p =
        some ({ locked := true, wait_queue := rest },
          { p with deadlocked := false }, some w)) ∧
    (m.locked = true → m.wait_queue = [] →
      mutexBlockingUnlock m p =
        some ({ locked := false, wait_queue := [] },
          { p with deadlocked := false }, none)) := by
  refine ⟨?_, ?_, ?_⟩
  · intro h; simp [mutexBlockingUnlock, h]
  · intro w rest h hq; simp [mutexBlockingUnlock, h, hq]
  · intro h hq; simp [mutexBlockingUnlock, h, hq]

theorem mutex_blocking_unlock_spec_witness :
    mutexBlockingUnlock ⟨true, [4, 5]⟩ ⟨false, true⟩ =
      some (⟨true, [5]⟩, ⟨false, false⟩, some 4) :=
  (mutex_blocking_unlock_spec ⟨true, [4, 5]⟩ ⟨false, true⟩).2.1 4 [5] rfl rfl

/-- C2 (refuted by the code): `sys_get_time` translates only the page
holding `ts` and stores the 16-byte `TimeVal` at physically contiguous
addresses, so when the struct straddles a page boundary whose
neighbouring virtual pages map to non-adjacent frames, the bytes land
in the wrong physical page instead of the pages the scatter translator
prescribes.  At `ts = 0x1FFC` with vpn 1 ↦ ppn 5 and vpn 2 ↦ ppn 7,
the write the code performs disagrees with the spec-mandated one. -/
theorem sys_get_time_straddle_bug :
    (sysGetTimeWriteAddrs straddlePT 0x1FFC).isSome = true ∧
    (specScatterWriteAddrs straddlePT 0x1FFC 16).isSome = true ∧
    sysGetTimeWriteAddrs straddlePT 0x1FFC ≠
      specScatterWriteAddrs straddlePT 0x1FFC 16 := by
  refine ⟨rfl, rfl, ?_⟩
  decide

/-- C8: `sys_semaphore_down` returns -0xDEAD immediately for every
`sem_id > 2`, leaving the semaphore table untouched (for any table,
even one where indexing would panic) and blocking nothing; for
`sem_id ≤ 2` with a populated slot it performs the semaphore down and
returns 0. -/
theorem sys_semaphore_down_guard_spec
    (sems : List (Option SemModel)) (sem_id cur : Nat) :
    (sem_id > 2 →
      sys_semaphore_down sems sem_id cur = some (-0xDEAD, sems, false)) ∧
    (sem_id ≤ 2 → ∀ s, sems.getD sem_id none = some s →
      sys_semaphore_down sems sem_id cur =
        some (0, sems.set sem_id (some (semDown s cur).1),
          (semDown s cur).2)) := by
  constructor
  · intro h
    simp [sys_semaphore_down, h, DEAD_SENTINEL]
  · intro h s hs
    rw [sys_semaphore_down, if_neg (by omega), hs]

theorem sys_semaphore_down_guard_spec_witness :
    sys_semaphore_down [some ⟨1, []⟩] 3 8 =
      some (-0xDEAD, [some ⟨1, []⟩], false) ∧
    sys_semaphore_down [some ⟨1, []⟩] 0 8 =
      some (0, [some ⟨1, []⟩].set 0 (some (semDown ⟨1, []⟩ 8).1),
        (semDown ⟨1, []⟩ 8).2) :=
  ⟨(sys_semaphore_down_guard_spec [some ⟨1, []⟩] 3 8).1 (by omega),
   (sys_semaphore_down_guard_spec [some ⟨1, []⟩] 0 8).2 (by omega)
     ⟨1, []⟩ rfl⟩

/-- C9 (refuted by the code): the file syscalls perform no syscall
counter update at all — `sys_write`, `sys_read`, `sys_close` and
`sys_fstat` leave the per-task `syscall_times` array untouched on
every path, although the task-info reporting reads the slots reserved
for them. -/
theorem file_syscalls_skip_counters (st : TaskFsState) (fd d : Nat) :
    (sys_write st fd d).2.syscall_times = st.syscall_times ∧
    (sys_read st fd d).2.syscall_times = st.syscall_times ∧
    (sys_close st fd).2.syscall_times = st.syscall_times ∧
    (sys_fstat st fd).2.syscall_times = st.syscall_times := by
  refine ⟨?_, ?_, ?_, ?_⟩ <;>
    · simp only [sys_write, sys_read, sys_close, sys_fstat]
      repeat' split
      all_goals rfl

theorem unlinkScan_no_match (name : Nat) :
    ∀ (l : List (Nat × Nat)), (∀ e ∈ l, ¬(e.1 = name)) →
      unlinkScan name l = (l, none) := by
  intro l
  induction l with
  | nil => intro _; rfl
  | cons e rest ih =>
      intro h
      have he : (e.1 == name) = false := by
        simp only [beq_eq_false_iff_ne, ne_eq]
        exact h e (List.mem_cons_self e rest)
      have hr := ih (fun x hx => h x (List.mem_cons_of_mem e hx))
      simp [unlinkScan, hr, he]

/-- C10: `sys_unlinkat` returns 0 for every name, even one with no
directory entry; in the absent-name case the rebuilt root directory
equals the old one and the `nlink_num` of inode id 0 is decremented
(u32 wrap-around), all other inodes untouched. -/
theorem sys_unlinkat_total_spec (fs : FsModel) (readStr : Nat → Nat)
    (p : Nat) :
    (sys_unlinkat fs readStr p).1 = 0 ∧
    ((∀ e ∈ fs.root_dir, ¬(e.1 = readStr p)) →
      (sys_unlinkat fs readStr p).2.root_dir = fs.root_dir ∧
      (sys_unlinkat fs readStr p).2.nlink 0 =
        (fs.nlink 0 + (U32_MOD - 1)) % U32_MOD ∧
      ∀ i, i ≠ 0 → (sys_unlinkat fs readStr p).2.nlink i = fs.nlink i) := by
  constructor
  · rfl
  · intro h
    have hscan := unlinkScan_no_match (readStr p) fs.root_dir h
    refine ⟨?_, ?_, ?_⟩
    · simp [sys_unlinkat, hscan]
    · simp [sys_unlinkat, hscan]
    · intro i hi
      simp [sys_unlinkat, hscan, hi]

theorem sys_unlinkat_total_spec_witness :
    (sys_unlinkat ⟨[(1, 4)], fun i => if i = 0 then 3 else 9, [], false⟩
      (fun _ => 2) 0).1 = 0 ∧
    (sys_unlinkat ⟨[(1, 4)], fun i => if i = 0 then 3 else 9, [], false⟩
      (fun _ => 2) 0).2.root_dir = [(1, 4)] ∧
    (sys_unlinkat ⟨[(1, 4)], fun i => if i = 0 then 3 else 9, [], false⟩
      (fun _ => 2) 0).2.nlink 0 = (3 + (U32_MOD - 1)) % U32_MOD ∧
    (sys_unlinkat ⟨[(1, 4)], fun i => if i = 0 then 3 else 9, [], false⟩
      (fun _ => 2) 0).2.nlink 5 = 9 := by
  have h := sys_unlinkat_total_spec
    ⟨[(1, 4)], fun i => if i = 0 then 3 else 9, [], false⟩ (fun _ => 2) 0
  have h2 := h.2 (by decide)
  exact ⟨h.1, h2.1, h2.2.1, h2.2.2 5 (by decide)⟩

/-- C7: `sys_linkat` returns -1 exactly when the two user pointers are
equal (raw pointer equality: distinct pointers to equal names are not
rejected) or no directory entry resolves the old name; otherwise it
increments the target inode's `nlink_num`, appends the directory entry
(new name, inode id) to the root directory, syncs the block cache, and
returns 0. -/
theorem sys_linkat_spec (fs : FsModel) (readStr : Nat → Nat)
    (op np : Nat) :
    ((sys_linkat fs readStr op np).1 = -1 ↔
      op = np ∨
        fs.root_dir.find? (fun e => e.1 == readStr op) = none) ∧
    (∀ inode_id, op ≠ np →
      (fs.root_dir.find? (fun e => e.1 == readStr op)).map (·.2) =
        some inode_id →
      sys_linkat fs readStr op np =
        (0, { root_dir := fs.root_dir ++ [(readStr np, inode_id)],
              nlink := fun i =>
                if i = inode_id then (fs.nlink inode_id + 1) % U32_MOD
                else fs.nlink i,
              data_freed := fs.data_freed,
              synced := true })) := by
  constructor
  · by_cases hp : op = np
    · simp [sys_linkat, hp]
    · rw [sys_linkat, if_neg hp]
      cases hf : (fs.root_dir.find? (fun e => e.1 == readStr op)) with
      | none => simp [hf, hp]
      | some e => simp [hf, hp]
  · intro inode_id hp hf
    rw [Option.map_eq_some'] at hf
    obtain ⟨e, he, hid⟩ := hf
    simp [sys_linkat, hp, he, hid]

theorem sys_linkat_spec_witness :
    sys_linkat ⟨[(1, 4)], fun _ => 1, [], false⟩
        (fun ptr => if ptr = 100 then 1 else 2) 100 200 =
      (0, { root_dir := [(1, 4)] ++ [(2, 4)],
            nlink := fun i => if i = 4 then (1 + 1) % U32_MOD else 1,
            data_freed := [],
            synced := true }) := by
  have h := (sys_linkat_spec ⟨[(1, 4)], fun _ => 1, [], false⟩
    (fun ptr => if ptr = 100 then 1 else 2) 100 200).2 4
    (by decide) (by decide)
  exact h

/-- C5: `sys_waitpid` returns -1 when no child matches the pid
argument (-1 matching any child); returns -2 when some child matches
but no matching child is a zombie; otherwise it removes the first
matching zombie child from the children list, emits its exit code
through the user-memory translator, and returns its pid. -/
theorem sys_waitpid_spec (children : List ChildModel) (pid : Int) :
    ((∀ c ∈ children, matchesPid pid c = false) →
      sys_waitpid children pid = (-1, children, none)) ∧
    ((∃ c ∈ children, matchesPid pid c = true) →
      (∀ c ∈ children, ¬(c.zombie = true ∧ matchesPid pid c = true)) →
      sys_waitpid children pid = (-2, children, none)) ∧
    ((∃ c ∈ children, c.zombie = true ∧ matchesPid pid c = true) →
      ∃ c pre post, children = pre ++ c :: post ∧
        c.zombie = true ∧ matchesPid pid c = true ∧
        sys_waitpid children pid =
          (Int.ofNat c.pid, pre ++ post, some c.exit_code)) := by
  refine ⟨?_, ?_, ?_⟩
  · intro h
    have hany : children.any (fun p => matchesPid pid p) = false := by
      simp only [List.any_eq_false]
      intro c hc
      simp [h c hc]
    simp [sys_waitpid, hany]
  · intro hex hnz
    have hany : children.any (fun p => matchesPid pid p) = true := by
      simp only [List.any_eq_true]
      obtain ⟨c, hc, hm⟩ := hex
      exact ⟨c, hc, by simp [hm]⟩
    have hnone :
        findRemoveBy (fun p => p.zombie && matchesPid pid p) children =
          none := by
      rw [findRemoveBy_eq_none]
      intro c hc
      have := hnz c hc
      cases hz : c.zombie <;> cases hm : matchesPid pid c <;>
        simp_all
    simp [sys_waitpid, hany, hnone]
  · intro hex
    obtain ⟨c0, hc0, hz0, hm0⟩ := hex
    obtain ⟨a, rest, hfr⟩ := findRemoveBy_isSome_of_exists
      (fun p => p.zombie && matchesPid pid p) children
      ⟨c0, hc0, by simp [hz0, hm0]⟩
    obtain ⟨hpa, pre, post, hsplit, hrest, _⟩ :=
      findRemoveBy_eq_some _ children a rest hfr
    simp only [Bool.and_eq_true] at hpa
    have hany : children.any (fun p => matchesPid pid p) = true := by
      simp only [List.any_eq_true]
      exact ⟨c0, hc0, by simp [hm0]⟩
    refine ⟨a, pre, post, hsplit, hpa.1, hpa.2, ?_⟩
    rw [← hrest]
    simp [sys_waitpid, hany, hfr]

theorem sys_waitpid_spec_witness :
    ∃ c pre post,
      ([⟨3, false, 7⟩, ⟨5, true, 42⟩] : List ChildModel) =
        pre ++ c :: post ∧
      c.zombie = true ∧ matchesPid 5 c = true ∧
      sys_waitpid [⟨3, false, 7⟩, ⟨5, true, 42⟩] 5 =
        (Int.ofNat c.pid, pre ++ post, some c.exit_code) :=
  (sys_waitpid_spec [⟨3, false, 7⟩, ⟨5, true, 42⟩] 5).2.2
    ⟨⟨5, true, 42⟩, by simp, rfl, by decide⟩

theorem sys_mmap_success (st : TaskState) (start len port : Nat)
    (hs : start < U64_MOD) (hl : len < U64_MOD)
    (h1 : start % PAGE_SIZE = 0)
    (h2 : ¬(port / 8 ≠ 0 ∨ port % 8 = 0))
    (h3 : ¬ freeFrames st.allocator ≤ numPages len)
    (h4 : ¬ anyValidPte st.memory_set.page_table (start / PAGE_SIZE)
      (numPages len) = true) :
    ∃ st', sys_mmap st start len port = some (0, st') ∧
      st'.memory_set.areas = st.memory_set.areas ++
        [{ l := start / PAGE_SIZE,
           r := vaCeil (wrapAdd start len),
           permR := decide (port % 2 = 1),
           permW := decide (port % 4 / 2 = 1),
           permX := decide (port / 4 = 1), permU := true }] := by
  have hle := mmap_range_le start len hs hl h1
  obtain ⟨pt', fa', hmr⟩ := mapRange_isSome (decide (port % 2 = 1))
    (decide (port % 4 / 2 = 1)) (decide (port / 4 = 1))
    (vaCeil (wrapAdd start len) - start / PAGE_SIZE)
    st.memory_set.page_table st.allocator (start / PAGE_SIZE) (by omega)
  refine ⟨⟨⟨pt', st.memory_set.areas ++
      [⟨start / PAGE_SIZE, vaCeil (wrapAdd start len),
        decide (port % 2 = 1), decide (port % 4 / 2 = 1),
        decide (port / 4 = 1), true⟩]⟩,
    fa', bumpSyscall st.syscall_times 11⟩, ?_, rfl⟩
  simp only [sys_mmap, h1, h2, h3, h4, ne_eq, not_false_eq_true,
    not_true_eq_false, if_false, if_true, ite_false, ite_true]
  rw [hmr]
  simp

/-- C3 as stated is false at a concrete input: with exactly one free
frame and a one-page request, the code returns -1 at the free-frame
check (`free <= num_pages`, process.rs line 246) although none of the
claim's rejection conditions — in particular "free frames insufficient
for the requested pages", i.e. free < requested — holds. -/
theorem sys_mmap_claim_counterexample :
    (sys_mmap mmapTightState 4096 4096 1).map Prod.fst = some (-1) ∧
    ¬ mmapClaimReject mmapTightState 4096 4096 1 := by
  constructor
  · rfl
  · unfold mmapClaimReject
    decide

/-- C3 amended: for machine-representable arguments,
`sys_mmap(start, len, prot)` returns -1 exactly when `start` is not
page-aligned, or `prot` has bits outside the low three, or the low
three bits of `prot` are all zero, or the free-frame count is less
than or equal to (not merely less than) the number of requested pages
(computed, like the code, in wrapping usize arithmetic), or some VPN
in the requested range already has a valid PTE; otherwise it appends a
framed area over the page-rounded range — rounded in wrapping usize
arithmetic; whenever `start + len + PAGE_SIZE - 1` does not overflow
this is exactly `[start / PAGE_SIZE, start / PAGE_SIZE + num_pages)` —
with permissions bit 0 → R, bit 1 → W, bit 2 → X, always U, and
returns 0. -/
theorem sys_mmap_spec (st : TaskState) (start len port : Nat)
    (hs : start < U64_MOD) (hl : len < U64_MOD) :
    (((sys_mmap st start len port).map Prod.fst = some (-1)) ↔
      mmapReject st start len port) ∧
    (¬ mmapReject st start len port →
      ∃ st', sys_mmap st start len port = some (0, st') ∧
        st'.memory_set.areas = st.memory_set.areas ++
          [{ l := start / PAGE_SIZE,
             r := vaCeil (wrapAdd start len),
             permR := decide (port % 2 = 1),
             permW := decide (port % 4 / 2 = 1),
             permX := decide (port / 4 = 1), permU := true }]) ∧
    (start % PAGE_SIZE = 0 → start + len + PAGE_SIZE - 1 < U64_MOD →
      vaCeil (wrapAdd start len) =
        start / PAGE_SIZE + numPages len) := by
  have main : (((sys_mmap st start len port).map Prod.fst = some (-1)) ↔
      mmapReject st start len port) ∧
      (¬ mmapReject st start len port →
        ∃ st', sys_mmap st start len port = some (0, st') ∧
          st'.memory_set.areas = st.memory_set.areas ++
            [{ l := start / PAGE_SIZE,
               r := vaCeil (wrapAdd start len),
               permR := decide (port % 2 = 1),
               permW := decide (port % 4 / 2 = 1),
               permX := decide (port / 4 = 1), permU := true }]) := by
    by_cases h1 : start % PAGE_SIZE = 0
    · by_cases h2 : port / 8 ≠ 0 ∨ port % 8 = 0
      · have hres : (sys_mmap st start len port).map Prod.fst =
            some (-1) := by
          simp [sys_mmap, h1, h2]
        have hrej : mmapReject st start len port :=
          Or.inr (h2.imp_right Or.inl)
        exact ⟨⟨fun _ => hrej, fun _ => hres⟩, fun h => absurd hrej h⟩
      · by_cases h3 : freeFrames st.allocator ≤ numPages len
        · have hres : (sys_mmap st start len port).map Prod.fst =
              some (-1) := by
            simp [sys_mmap, h1, h2, h3]
          have hrej : mmapReject st start len port :=
            Or.inr (Or.inr (Or.inr (Or.inl h3)))
          exact ⟨⟨fun _ => hrej, fun _ => hres⟩, fun h => absurd hrej h⟩
        · by_cases h4 : anyValidPte st.memory_set.page_table
              (start / PAGE_SIZE) (numPages len) = true
          · have hres : (sys_mmap st start len port).map Prod.fst =
                some (-1) := by
              simp [sys_mmap, h1, h2, h3, h4]
            have hrej : mmapReject st start len port :=
              Or.inr (Or.inr (Or.inr (Or.inr h4)))
            exact ⟨⟨fun _ => hrej, fun _ => hres⟩, fun h => absurd hrej h⟩
          · obtain ⟨st', heq, hareas⟩ :=
              sys_mmap_success st start len port hs hl h1 h2 h3 h4
            constructor
            · constructor
              · intro hL
                rw [heq] at hL
                simp at hL
              · intro hR
                rcases hR with a | b | c | d | e
                · exact absurd a (by simp [h1])
                · exact absurd (Or.inl b) h2
                · exact absurd (Or.inr c) h2
                · exact absurd d h3
                · exact absurd e h4
            · exact fun _ => ⟨st', heq, hareas⟩
    · have hres : (sys_mmap st start len port).map Prod.fst =
          some (-1) := by
        simp [sys_mmap, h1]
      have hrej : mmapReject st start len port := Or.inl h1
      exact ⟨⟨fun _ => hrej, fun _ => hres⟩, fun h => absurd hrej h⟩
  exact ⟨main.1, main.2, fun ha hno => mmap_range_eq start len ha hno⟩

theorem sys_mmap_spec_witness :
    (∃ st', sys_mmap mmapRoomState 4096 4096 1 = some (0, st') ∧
      st'.memory_set.areas = mmapRoomState.memory_set.areas ++
        [{ l := 4096 / PAGE_SIZE, r := vaCeil (wrapAdd 4096 4096),
           permR := decide ((1 : Nat) % 2 = 1),
           permW := decide ((1 : Nat) % 4 / 2 = 1),
           permX := decide ((1 : Nat) / 4 = 1), permU := true }]) ∧
    vaCeil (wrapAdd 4096 4096) = 4096 / PAGE_SIZE + numPages 4096 := by
  have h := sys_mmap_spec mmapRoomState 4096 4096 1 (by decide) (by decide)
  exact ⟨h.2.1 (by unfold mmapReject; decide),
    h.2.2 (by decide) (by decide)⟩

/-- C4 as stated is false at a concrete input: with two empty map
areas at vpn 16 (each created by `sys_mmap(0x10000, 0, 1)`), a first
`sys_munmap(0x10000, 0)` matches and returns 0, and a second
`sys_munmap` of the same just-unmapped region returns 0 again instead
of -1, because the duplicate empty area still matches. -/
theorem sys_munmap_claim_counterexample :
    (sys_munmap twoEmptyAreasState 65536 0).map Prod.fst = some 0 ∧
    ((sys_munmap twoEmptyAreasState 65536 0).bind
      (fun q => sys_munmap q.2 65536 0)).map Prod.fst = some 0 := by
  exact ⟨rfl, rfl⟩

/-- C4 amended: under the address-space invariants (every area page
mapped and valid, area ranges pairwise disjoint), `sys_munmap(start,
len)` returns -1 unless the page range of `[start, start + len)`
coincides with an existing map area by both endpoints; on a match the
first matching area is removed, its pages are cleared, its frames are
returned to the allocator, and the call returns 0; and — for a
non-empty range (`numPages len ≥ 1`, which the counterexample with
`len = 0` forces as an extra hypothesis) — a second `sys_munmap` of
the same region returns -1. -/
theorem sys_munmap_spec (st : TaskState) (start len : Nat)
    (hm : areasMapped st) (hd : areasDisjoint st) :
    (¬ munmapMatch st start len →
      (sys_munmap st start len).map Prod.fst = some (-1)) ∧
    (munmapMatch st start len →
      ∃ a rest st',
        findRemoveBy (fun b => b.l == start / PAGE_SIZE &&
            b.r == start / PAGE_SIZE + numPages len)
          st.memory_set.areas = some (a, rest) ∧
        sys_munmap st start len = some (0, st') ∧
        st'.memory_set.areas = rest ∧
        (∀ v, start / PAGE_SIZE ≤ v →
          v < start / PAGE_SIZE + numPages len →
          st'.memory_set.page_table v = some emptyPTE) ∧
        st'.allocator.recycled = st.allocator.recycled ++
          rangePpns st.memory_set.page_table (start / PAGE_SIZE)
            (numPages len) ∧
        (1 ≤ numPages len →
          (sys_munmap st' start len).map Prod.fst = some (-1))) := by
  constructor
  · intro hnm
    by_cases h1 : start % PAGE_SIZE = 0
    · have hnoarea : ∀ b ∈ st.memory_set.areas,
          (b.l == start / PAGE_SIZE &&
            b.r == start / PAGE_SIZE + numPages len) = false := by
        intro b hb
        cases hb2 : (b.l == start / PAGE_SIZE &&
            b.r == start / PAGE_SIZE + numPages len) with
        | false => rfl
        | true =>
            exfalso
            simp only [Bool.and_eq_true, beq_iff_eq] at hb2
            exact hnm ⟨h1, b, hb, hb2.1, hb2.2⟩
      have hfr : findRemoveBy (fun b => b.l == start / PAGE_SIZE &&
          b.r == start / PAGE_SIZE + numPages len)
            st.memory_set.areas = none :=
        (findRemoveBy_eq_none _ _).mpr hnoarea
      by_cases h2 : anyMissingPte st.memory_set.page_table
          (start / PAGE_SIZE) (numPages len) = true
      · simp [sys_munmap, h1, h2]
      · simp [sys_munmap, h1, h2, hfr]
    · simp [sys_munmap, h1]
  · intro hmt
    obtain ⟨h1, a0, ha0mem, ha0l, ha0r⟩ := hmt
    obtain ⟨a, rest, hfr⟩ := findRemoveBy_isSome_of_exists
      (fun b => b.l == start / PAGE_SIZE &&
        b.r == start / PAGE_SIZE + numPages len)
      st.memory_set.areas ⟨a0, ha0mem, by simp [ha0l, ha0r]⟩
    obtain ⟨hpa, pre, post, hsplit, hrest, hprefalse⟩ :=
      findRemoveBy_eq_some _ _ _ _ hfr
    simp only [Bool.and_eq_true, beq_iff_eq] at hpa
    obtain ⟨hal, har⟩ := hpa
    have hamem : a ∈ st.memory_set.areas := by
      rw [hsplit]
      exact List.mem_append_right _ (List.mem_cons_self _ _)
    have hvalid0 := hm a hamem
    have hcnt : a.r - a.l = numPages len := by omega
    rw [hcnt, hal] at hvalid0
    have hnomiss : anyMissingPte st.memory_set.page_table
        (start / PAGE_SIZE) (numPages len) = false :=
      allValidPte_imp_not_missing _ _ _ hvalid0
    obtain ⟨pt', fa', hur, hin, hout, hrc, hcur, hed⟩ :=
      unmapRange_spec (numPages len) st.memory_set.page_table
        st.allocator (start / PAGE_SIZE) hvalid0
    refine ⟨a, rest,
      ⟨⟨pt', rest⟩, fa', bumpSyscall st.syscall_times 8⟩,
      hfr, ?_, rfl, hin, hrc, ?_⟩
    · simp only [sys_munmap, h1, hnomiss, ne_eq, not_false_eq_true,
        not_true_eq_false, if_false, if_true, ite_false, ite_true]
      simp only [hfr]
      rw [hcnt, hal, hur]
      simp
    · intro hn1
      have hmiss2 : anyMissingPte pt' (start / PAGE_SIZE)
          (numPages len) = false := by
        refine anyMissingPte_eq_false _ _ _ (fun i hi => ?_)
        rw [hin (start / PAGE_SIZE + i) (by omega) (by omega)]
        rfl
      have hdisj : List.Pairwise (fun a b => a.r ≤ b.l ∨ b.r ≤ a.l)
          (pre ++ a :: post) := by
        rw [← hsplit]; exact hd
      rw [List.pairwise_append] at hdisj
      obtain ⟨hdpre, hdcons, hdcross⟩ := hdisj
      rw [List.pairwise_cons] at hdcons
      obtain ⟨hapost, _⟩ := hdcons
      have hnoarea2 : ∀ b ∈ rest,
          (b.l == start / PAGE_SIZE &&
            b.r == start / PAGE_SIZE + numPages len) = false := by
        intro b hb
        cases hb2 : (b.l == start / PAGE_SIZE &&
            b.r == start / PAGE_SIZE + numPages len) with
        | false => rfl
        | true =>
            exfalso
            simp only [Bool.and_eq_true, beq_iff_eq] at hb2
            have hbmem : b ∈ pre ++ post := by rw [← hrest]; exact hb
            rcases List.mem_append.mp hbmem with hbpre | hbpost
            · have := hdcross b hbpre a (List.mem_cons_self _ _)
              omega
            · have := hapost b hbpost
              omega
      have hfr2 : findRemoveBy (fun b => b.l == start / PAGE_SIZE &&
          b.r == start / PAGE_SIZE + numPages len) rest = none :=
        (findRemoveBy_eq_none _ _).mpr hnoarea2
      simp [sys_munmap, h1, hmiss2, hfr2]

theorem sys_munmap_spec_witness :
    ∃ a rest st',
      findRemoveBy (fun b => b.l == 65536 / PAGE_SIZE &&
          b.r == 65536 / PAGE_SIZE + numPages 4096)
        onePageState.memory_set.areas = some (a, rest) ∧
      sys_munmap onePageState 65536 4096 = some (0, st') ∧
      st'.memory_set.areas = rest ∧
      (∀ v, 65536 / PAGE_SIZE ≤ v →
        v < 65536 / PAGE_SIZE + numPages 4096 →
        st'.memory_set.page_table v = some emptyPTE) ∧
      st'.allocator.recycled = onePageState.allocator.recycled ++
        rangePpns onePageState.memory_set.page_table (65536 / PAGE_SIZE)
          (numPages 4096) ∧
      (1 ≤ numPages 4096 →
        (sys_munmap st' 65536 4096).map Prod.fst = some (-1)) :=
  (sys_munmap_spec onePageState 65536 4096
    (by unfold areasMapped; decide)
    (by unfold areasDisjoint; decide)).2
    (by unfold munmapMatch; decide)

end RCoreModel
